import Mathlib

/-!
Verification of the schema-driven record generator in `chat/common/util.py`
(`Model.model_with_fields`, `Model.add_getters_setters`,
`Model.clean_getters_setters`, `Model.add_fields`, `Model.omit_fields`,
`model_from_proto`) and the synthesized instance behavior
(`__impl_init__`, `__impl_getter__`, `__impl_setter__`).

Python values are embedded as `PyVal`; Python dicts (ordered, unique keys,
later insertion of an existing key overwrites in place) as association
lists with `dictInsert`/`dictOfList`; a compiled model class as `Kind`
(its `_fields` dict plus the set of `get_`/`set_` attributes bound to real
accessors and whether `__init__` was installed); exceptions as
`Except PyError`.  Class-attribute mutation (`setattr` on a class object)
is additionally embedded with an explicit heap of kinds (`HState`) so that
non-interference of derivation with the base kind is a real statement.
-/

namespace Wire

/-- A Python runtime value, as far as the generator inspects one:
`none` is Python `None`; `type s` is a class object whose metaclass is
exactly `type` (so Python's `type(v) is type` test succeeds), carrying its
name; every other object is `int`, `str` or an opaque `obj`. -/
inductive PyVal where
  | none : PyVal
  | int : Int → PyVal
  | str : String → PyVal
  | type : String → PyVal
  | obj : Nat → PyVal
deriving DecidableEq, Repr

/-- Python's `type(value) is type` check used by `add_getters_setters`. -/
def isType : PyVal → Bool
  | .type _ => true
  | _ => false

/-- A Python dict with string keys, as an ordered association list with
unique keys (an invariant Python dicts maintain by construction). -/
abbrev Dict := List (String × PyVal)

/-- `d[k] = v` on a Python dict: overwrite in place if `k` is present
(keeping its position), else append at the end. -/
def dictInsert (d : Dict) (k : String) (v : PyVal) : Dict :=
  if d.any (fun p => p.1 == k) then
    d.map (fun p => if p.1 == k then (k, v) else p)
  else d ++ [(k, v)]

/-- `d.get(k)`: the value at key `k`, if present. -/
def dictGet? (d : Dict) (k : String) : Option PyVal :=
  (d.find? (fun p => p.1 == k)).map (fun p => p.2)

/-- `k in d` on a Python dict. -/
def dictHas (d : Dict) (k : String) : Bool :=
  d.any (fun p => p.1 == k)

/-- Python `dict(pairs)`: build a dict from a list of pairs, a later pair
with the same key overwriting the earlier value in place. -/
def dictOfList (l : Dict) : Dict :=
  l.foldl (fun d p => dictInsert d p.1 p.2) []

/-- `setattr(model, name, fn)` on the record of accessor names: adds the
name if absent (rebinding an existing attribute leaves the name set as is). -/
def listPut (l : List String) (n : String) : List String :=
  if l.contains n then l else l ++ [n]

/-- The exceptions the embedded code can raise.  `reservedName`,
`notAType`, `unknownField` are the three `ValueError`s of
`model_with_fields` / `add_getters_setters` / `omit_fields`;
`typeErrorPositional` is the `TypeError` from calling the keyword-only
`model_with_fields` with a positional dict; `notInterface` / `notEnum` are
the `ValueError`s of `model_from_proto`; `attributeError n` is an
`AttributeError` for a missing attribute `n`. -/
inductive PyError where
  | reservedName : String → PyError
  | notAType : String → PyError
  | unknownField : String → PyError
  | typeErrorPositional : PyError
  | notInterface : PyError
  | notEnum : PyError
  | attributeError : String → PyError
deriving DecidableEq, Repr

/-- `Model._reserved_fields`. -/
def reservedFields : List String := ["_fields", "_reserved_fields"]

/-- A model class object: its `_fields` dict, the field names with a
`get_<name>` attribute bound to a real getter, likewise for setters, and
whether the synthesized `__init__` has been installed. -/
structure Kind where
  fields : Dict
  getters : List String
  setters : List String
  hasInit : Bool
deriving DecidableEq, Repr

/-- The loop body of `Model.add_getters_setters`: for each `(name, value)`
of `_fields.items()`, raise `ValueError` if `type(value) is not type`,
else bind `set_<name>` and `get_<name>` on the model. -/
def addLoop : Kind → Dict → Except PyError Kind
  | m, [] => .ok m
  | m, (name, v) :: rest =>
    if isType v then
      addLoop { m with setters := listPut m.setters name,
                       getters := listPut m.getters name } rest
    else .error (.notAType name)

/-- `Model.clean_getters_setters`: every `get_`/`set_` attribute whose
suffix is not a current field is set to `None` (i.e. stops being a real
accessor). -/
def clean_getters_setters (m : Kind) : Kind :=
  { m with getters := m.getters.filter (fun n => dictHas m.fields n),
           setters := m.setters.filter (fun n => dictHas m.fields n) }

/-- `Model.add_getters_setters`: run the accessor-synthesis loop over the
model's own `_fields`, then install `__init__` and clean stale accessors. -/
def add_getters_setters (m : Kind) : Except PyError Kind :=
  match addLoop m m.fields with
  | .error e => .error e
  | .ok mGS => .ok (clean_getters_setters { mGS with hasInit := true })

/-- `Model.model_with_fields(**fields)`: reject the first reserved name,
else build a fresh subclass holding a copy of `fields` and run
`add_getters_setters` on it. -/
def model_with_fields (fields : Dict) : Except PyError Kind :=
  match fields.find? (fun p => reservedFields.contains p.1) with
  | some p => .error (.reservedName p.1)
  | Option.none =>
    add_getters_setters { fields := fields, getters := [], setters := [],
                          hasInit := false }

/-- `Model.add_fields(**new_fields)` on a class `cls`:
`dict(list(cls._fields.items()) + list(new_fields.items()))` (later pairs
overwrite earlier ones — there is no duplicate check), compile it, and run
`add_getters_setters` once more on the result. -/
def Kind.add_fields (cls : Kind) (new_fields : Dict) : Except PyError Kind :=
  match model_with_fields (dictOfList (cls.fields ++ new_fields)) with
  | .error e => .error e
  | .ok k => add_getters_setters k

/-- `Model.omit_fields(**rm_fields)` on a class `cls`: reject the first
name not in `cls._fields` with a `ValueError`; otherwise the source calls
`Model.model_with_fields({...})` with the remaining-fields dict as a
POSITIONAL argument, and `model_with_fields` accepts only keyword
arguments, so Python raises `TypeError` before any kind is built. -/
def Kind.omit_fields (cls : Kind) (rm_fields : List String) :
    Except PyError Kind :=
  match rm_fields.find? (fun n => !dictHas cls.fields n) with
  | some n => .error (.unknownField n)
  | Option.none => .error .typeErrorPositional

/-- An `Enum` subclass, as `model_from_proto` consumes one: its
`__members__` mapping of member name to member value. -/
structure EnumDecl where
  members : Dict
deriving DecidableEq, Repr

/-- An argument to `model_from_proto`: whether it is a subclass of
`Interface`, and its `_fields_enum` attribute — `some e` when that
attribute is an `Enum` subclass with members `e.members`, `none` when it
is `None` (the `Interface` default) or any non-Enum value.  (`Interface`
declares `_fields_enum`, so `hasattr` always succeeds on a subclass.) -/
structure Iface where
  isInterfaceSubclass : Bool
  fieldsEnum : Option EnumDecl
deriving DecidableEq, Repr

/-- `model_from_proto(iface)`: validate that `iface` subclasses
`Interface` and that `_fields_enum` is an `Enum`; then the source calls
`Model.model_from_fields(...)` — an attribute `Model` does not have (the
defined method is `model_with_fields`) — so Python raises
`AttributeError` before any kind is built. -/
def model_from_proto (iface : Iface) : Except PyError Kind :=
  if !iface.isInterfaceSubclass then .error .notInterface
  else
    match iface.fieldsEnum with
    | Option.none => .error .notEnum
    | some _ => .error (.attributeError "model_from_fields")

/-- An instance of a compiled record kind: the class's `_fields` and the
instance's `__dict__` (which holds the private `_<name>` slots). -/
structure Instance where
  fields : Dict
  attrs : Dict
deriving DecidableEq, Repr

/-- `__impl_setter__` bound as `set_<name>`: store `val` in the private
slot `_<name>` and return the instance. -/
def Instance.setF (i : Instance) (name : String) (v : PyVal) : Instance :=
  { i with attrs := dictInsert i.attrs ("_" ++ name) v }

/-- `__impl_getter__` bound as `get_<name>`:
`getattr(self, '_<name>', None)`. -/
def Instance.getF (i : Instance) (name : String) : PyVal :=
  match dictGet? i.attrs ("_" ++ name) with
  | some v => v
  | Option.none => .none

/-- `__impl_init__(self, **kwargs)` on a compiled kind: for each declared
field, call its setter with `kwargs[name]` if supplied, else store `None`
in the private slot.  Keyword arguments that are not declared fields are
never consulted. -/
def initImpl (fields : Dict) (kwargs : Dict) : Instance :=
  fields.foldl
    (fun i p =>
      match dictGet? kwargs p.1 with
      | some v => i.setF p.1 v
      | Option.none =>
        { i with attrs := dictInsert i.attrs ("_" ++ p.1) PyVal.none })
    { fields := fields, attrs := [] }

/-! ### Heap embedding of class-object mutation

`setattr` on a class object mutates it in place, so whether `add_fields` /
`omit_fields` mutate the base class is a statement about object identity.
Kinds live at addresses in a heap; each `setattr` of the source is an
update at the address of the class it targets. -/

/-- A heap of class objects: allocated kinds at their addresses, and the
next fresh address (every allocated address is below `next`). -/
structure HState where
  heap : List (Nat × Kind)
  next : Nat
deriving DecidableEq, Repr

/-- The kind at address `a`, if allocated. -/
def heapGet? (s : HState) (a : Nat) : Option Kind :=
  (s.heap.find? (fun p => p.1 == a)).map (fun p => p.2)

/-- A `setattr` on the class at `a`: replace its record by `f` of it. -/
def updKind (s : HState) (a : Nat) (f : Kind → Kind) : HState :=
  { s with heap := s.heap.map (fun p => if p.1 == a then (p.1, f p.2) else p) }

/-- `class __impl_model__(Model): ...`: allocate a fresh class object. -/
def alloc (s : HState) (k : Kind) : Nat × HState :=
  (s.next, { heap := s.heap ++ [(s.next, k)], next := s.next + 1 })

/-- The `add_getters_setters` loop, each `setattr` hitting address `a`. -/
def addLoopH : HState → Nat → Dict → (Except PyError Unit) × HState
  | s, _, [] => (.ok (), s)
  | s, a, (name, v) :: rest =>
    if isType v then
      addLoopH
        (updKind s a (fun m =>
          { m with setters := listPut m.setters name,
                   getters := listPut m.getters name })) a rest
    else (.error (.notAType name), s)

/-- `add_getters_setters` on the class at `a`: loop over its `_fields`,
then install `__init__` and clean stale accessors, all at `a`. -/
def addGSH (s : HState) (a : Nat) : (Except PyError Unit) × HState :=
  match heapGet? s a with
  | Option.none => (.error (.attributeError "_fields"), s)
  | some m =>
    match addLoopH s a m.fields with
    | (.error e, sAfter) => (.error e, sAfter)
    | (.ok _, sAfter) =>
      (.ok (), updKind (updKind sAfter a (fun k => { k with hasInit := true }))
                a clean_getters_setters)

/-- `model_with_fields` with the fresh subclass allocated on the heap. -/
def model_with_fieldsH (s : HState) (fields : Dict) :
    (Except PyError Nat) × HState :=
  match fields.find? (fun p => reservedFields.contains p.1) with
  | some p => (.error (.reservedName p.1), s)
  | Option.none =>
    match alloc s { fields := fields, getters := [], setters := [],
                    hasInit := false } with
    | (a, sA) =>
      match addGSH sA a with
      | (.error e, sG) => (.error e, sG)
      | (.ok _, sG) => (.ok a, sG)

/-- `add_fields` on the class at `clsA`: read `cls._fields`, compile the
merged dict into a fresh class, and run `add_getters_setters` on it. -/
def add_fieldsH (s : HState) (clsA : Nat) (new_fields : Dict) :
    (Except PyError Nat) × HState :=
  match heapGet? s clsA with
  | Option.none => (.error (.attributeError "_fields"), s)
  | some cls =>
    match model_with_fieldsH s (dictOfList (cls.fields ++ new_fields)) with
    | (.error e, sM) => (.error e, sM)
    | (.ok a, sM) =>
      match addGSH sM a with
      | (.error e, sG) => (.error e, sG)
      | (.ok _, sG) => (.ok a, sG)

/-- `omit_fields` on the class at `clsA`: validate the omitted names, then
raise `TypeError` at the positional `model_with_fields({...})` call.  No
`setattr` is reached, so the heap is returned unchanged. -/
def omit_fieldsH (s : HState) (clsA : Nat) (rm_fields : List String) :
    (Except PyError Nat) × HState :=
  match heapGet? s clsA with
  | Option.none => (.error (.attributeError "_fields"), s)
  | some cls =>
    match rm_fields.find? (fun n => !dictHas cls.fields n) with
    | some n => (.error (.unknownField n), s)
    | Option.none => (.error .typeErrorPositional, s)

/-- Heap well-formedness: every allocated address is below `next`. -/
def HState.WF (s : HState) : Prop :=
  ∀ p ∈ s.heap, p.1 < s.next

instance (s : HState) : Decidable s.WF := by
  unfold HState.WF; infer_instance

/-! ### Dictionary lemmas -/

theorem find?_map_replace (d : Dict) (k : String) (v : PyVal)
    (h : d.any (fun p => p.1 == k) = true) :
    (d.map (fun p => if p.1 == k then (k, v) else p)).find?
        (fun p => p.1 == k) = some (k, v) := by
  induction d with
  | nil => simp at h
  | cons q rest ih =>
    cases hq : (q.1 == k) with
    | true =>
      simp only [List.map_cons, hq, if_true]
      exact List.find?_cons_of_pos _ (by simp)
    | false =>
      have h2 : rest.any (fun p => p.1 == k) = true := by
        simp only [List.any_cons, hq, Bool.false_or] at h
        exact h
      simp only [List.map_cons, hq, if_false]
      rw [List.find?_cons_of_neg _ (by simp [hq])]
      exact ih h2

theorem find?_append_new (d : Dict) (k : String) (v : PyVal)
    (h : d.any (fun p => p.1 == k) = false) :
    (d ++ [(k, v)]).find? (fun p => p.1 == k) = some (k, v) := by
  induction d with
  | nil => simp [List.find?_cons_of_pos]
  | cons q rest ih =>
    have hq : (q.1 == k) = false := by
      simp only [List.any_cons] at h
      exact (Bool.or_eq_false_iff.mp h).1
    have h2 : rest.any (fun p => p.1 == k) = false := by
      simp only [List.any_cons] at h
      exact (Bool.or_eq_false_iff.mp h).2
    rw [List.cons_append, List.find?_cons_of_neg _ (by simp [hq])]
    exact ih h2

/-- Inserting at key `k` makes lookup at `k` return the inserted value. -/
theorem dictGet?_insert_self (d : Dict) (k : String) (v : PyVal) :
    dictGet? (dictInsert d k v) k = some v := by
  unfold dictGet? dictInsert
  cases h : d.any (fun p => p.1 == k) with
  | true =>
    rw [if_pos rfl, find?_map_replace d k v h]
    rfl
  | false =>
    rw [if_neg (by simp [h]), find?_append_new d k v h]
    rfl

theorem find?_map_replace_other (d : Dict) (k k2 : String) (v : PyVal)
    (h : k2 ≠ k) :
    (d.map (fun p => if p.1 == k then (k, v) else p)).find?
        (fun p => p.1 == k2) = d.find? (fun p => p.1 == k2) := by
  induction d with
  | nil => rfl
  | cons q rest ih =>
    cases hq : (q.1 == k) with
    | true =>
      have hqk : q.1 = k := by simpa using hq
      have hne2 : (q.1 == k2) = false := by
        simp only [hqk, beq_eq_false_iff_ne]
        exact fun hc => h hc.symm
      simp only [List.map_cons, hq, if_true]
      rw [List.find?_cons_of_neg _ (by simpa using fun hc => h hc.symm),
          List.find?_cons_of_neg _ (by simp [hne2])]
      exact ih
    | false =>
      simp only [List.map_cons, hq, if_false]
      cases hq2 : (q.1 == k2) with
      | true =>
        rw [List.find?_cons_of_pos _ (by simp [hq2]),
            List.find?_cons_of_pos _ (by simp [hq2])]
        simp
      | false =>
        rw [List.find?_cons_of_neg _ (by simp [hq2]),
            List.find?_cons_of_neg _ (by simp [hq2])]
        exact ih

theorem find?_append_single_other (d : Dict) (k k2 : String) (v : PyVal)
    (h : k2 ≠ k) :
    (d ++ [(k, v)]).find? (fun p => p.1 == k2)
      = d.find? (fun p => p.1 == k2) := by
  induction d with
  | nil =>
    simp only [List.nil_append]
    rw [List.find?_cons_of_neg _ (by simpa using fun hc => h hc.symm)]
  | cons q rest ih =>
    cases hq2 : (q.1 == k2) with
    | true =>
      rw [List.cons_append, List.find?_cons_of_pos _ (by simp [hq2]),
          List.find?_cons_of_pos _ (by simp [hq2])]
    | false =>
      rw [List.cons_append, List.find?_cons_of_neg _ (by simp [hq2]),
          List.find?_cons_of_neg _ (by simp [hq2])]
      exact ih

/-- Inserting at key `k` leaves lookup at any other key unchanged. -/
theorem dictGet?_insert_other (d : Dict) (k k2 : String) (v : PyVal)
    (h : k2 ≠ k) : dictGet? (dictInsert d k v) k2 = dictGet? d k2 := by
  unfold dictGet? dictInsert
  cases hAny : d.any (fun p => p.1 == k) with
  | true => rw [if_pos rfl, find?_map_replace_other d k k2 v h]
  | false => rw [if_neg (by simp), find?_append_single_other d k k2 v h]

/-- Every pair of `dictInsert d k v` is `(k, v)` or a pair of `d`. -/
theorem mem_dictInsert (d : Dict) (k : String) (v : PyVal) (p : String × PyVal)
    (hp : p ∈ dictInsert d k v) : p = (k, v) ∨ p ∈ d := by
  unfold dictInsert at hp
  cases hAny : d.any (fun q => q.1 == k) with
  | true =>
    rw [if_pos (by rw [hAny])] at hp
    obtain ⟨q, hq, hfq⟩ := List.mem_map.mp hp
    by_cases hqk : (q.1 == k) = true
    · rw [if_pos hqk] at hfq
      exact Or.inl hfq.symm
    · rw [if_neg hqk] at hfq
      exact Or.inr (hfq ▸ hq)
  | false =>
    rw [if_neg (by rw [hAny]; simp)] at hp
    rcases List.mem_append.mp hp with h1 | h2
    · exact Or.inr h1
    · exact Or.inl (by simpa using h2)

/-- A key present as a pair's first component is in the dict. -/
theorem dictHas_of_mem (d : Dict) (p : String × PyVal) (hp : p ∈ d) :
    dictHas d p.1 = true := by
  unfold dictHas
  exact List.any_eq_true.mpr ⟨p, hp, by simp⟩

/-! ### Instance-level lemmas -/

/-- A getter over an instance whose every private slot holds `None`
returns `None` (whether the slot is present or missing). -/
theorem getF_of_values_none (i : Instance)
    (h : ∀ p ∈ i.attrs, p.2 = PyVal.none) (name : String) :
    i.getF name = PyVal.none := by
  unfold Instance.getF dictGet?
  cases hf : i.attrs.find? (fun p => p.1 == ("_" ++ name)) with
  | none => rfl
  | some p =>
    exact h p (List.mem_of_find?_eq_some hf)

/-- The no-kwargs `__impl_init__` fold keeps every private slot at `None`. -/
theorem initImpl_nil_values_none (fields : Dict) :
    ∀ p ∈ (initImpl fields []).attrs, p.2 = PyVal.none := by
  unfold initImpl
  have aux : ∀ (l : Dict) (i : Instance),
      (∀ p ∈ i.attrs, p.2 = PyVal.none) →
      ∀ p ∈ (l.foldl
        (fun i p =>
          match dictGet? ([] : Dict) p.1 with
          | some v => i.setF p.1 v
          | Option.none =>
            { i with attrs := dictInsert i.attrs ("_" ++ p.1) PyVal.none })
        i).attrs, p.2 = PyVal.none := by
    intro l
    induction l with
    | nil => intro i hi; exact hi
    | cons q rest ih =>
      intro i hi
      rw [List.foldl_cons]
      apply ih
      intro p hp
      rcases mem_dictInsert i.attrs ("_" ++ q.1) PyVal.none p hp with h1 | h2
      · rw [h1]
      · exact hi p h2
  exact aux fields { fields := fields, attrs := [] } (by simp)

/-- Filtering kwargs down to declared names does not change lookups at
declared names. -/
theorem dictGet?_filter_declared (fields l : Dict) (k : String)
    (hk : dictHas fields k = true) :
    dictGet? (l.filter (fun p => dictHas fields p.1)) k = dictGet? l k := by
  unfold dictGet?
  congr 1
  induction l with
  | nil => rfl
  | cons q rest ih =>
    cases hq : dictHas fields q.1 with
    | true =>
      rw [List.filter_cons_of_pos (by simp [hq])]
      cases hq2 : (q.1 == k) with
      | true =>
        rw [List.find?_cons_of_pos _ (by simp [hq2]),
            List.find?_cons_of_pos _ (by simp [hq2])]
      | false =>
        rw [List.find?_cons_of_neg _ (by simp [hq2]),
            List.find?_cons_of_neg _ (by simp [hq2])]
        exact ih
    | false =>
      have hq2 : (q.1 == k) = false := by
        cases hq3 : (q.1 == k) with
        | true =>
          have : q.1 = k := by simpa using hq3
          rw [this, hk] at hq
          cases hq
        | false => rfl
      rw [List.filter_cons_of_neg (by simp [hq]),
          List.find?_cons_of_neg _ (by simp [hq2])]
      exact ih

/-! ### Claim theorems: instance behavior -/

/-- Claim C5: for every compiled record kind, every instance `i`, every
declared field `name` and every value `v`, the synthesized setter stores
`v` so that the chained getter returns exactly `v`; the setter returns the
instance itself (same kind, and every attribute other than the private
slot `_<name>` unchanged). -/
theorem set_get_roundtrip (i : Instance) (name : String) (v : PyVal) :
    (i.setF name v).getF name = v
    ∧ (i.setF name v).fields = i.fields
    ∧ ∀ k, k ≠ "_" ++ name →
        dictGet? (i.setF name v).attrs k = dictGet? i.attrs k := by
  refine ⟨?_, rfl, ?_⟩
  · show (match dictGet? (dictInsert i.attrs ("_" ++ name) v)
        ("_" ++ name) with
      | some w => w
      | Option.none => PyVal.none) = v
    rw [dictGet?_insert_self]
  · intro k hk
    exact dictGet?_insert_other i.attrs ("_" ++ name) k v hk

/-- Witness for C5 at a concrete instance: setting `username` to
`"alice"` and reading it back yields `"alice"`, and an unrelated
attribute is unchanged. -/
theorem set_get_roundtrip_witness :
    ((Instance.mk [("username", PyVal.type "str")] []).setF "username"
        (PyVal.str "alice")).getF "username" = PyVal.str "alice"
    ∧ dictGet? (((Instance.mk [("username", PyVal.type "str")] []).setF
        "username" (PyVal.str "alice")).attrs) "_other"
      = dictGet? ([] : Dict) "_other" := by
  obtain ⟨h1, _, h3⟩ := set_get_roundtrip
    (Instance.mk [("username", PyVal.type "str")] []) "username"
    (PyVal.str "alice")
  exact ⟨h1, h3 "_other" (by decide)⟩

/-- Claim C6: an instance constructed with no constructor arguments has
every declared field initialized to `None`, so every getter returns the
absent marker (never a type-derived default). -/
theorem fresh_instance_getter_none (fields : Dict) (name : String)
    (h : dictHas fields name = true) :
    (initImpl fields []).getF name = PyVal.none :=
  getF_of_values_none _ (initImpl_nil_values_none fields) name

/-- Witness for C6 at a concrete two-field schema. -/
theorem fresh_instance_getter_none_witness :
    dictHas [("username", PyVal.type "str"), ("logged_in", PyVal.type "bool")]
        "logged_in" = true
    ∧ (initImpl [("username", PyVal.type "str"),
        ("logged_in", PyVal.type "bool")] []).getF "logged_in"
      = PyVal.none :=
  ⟨by decide,
   fresh_instance_getter_none
     [("username", PyVal.type "str"), ("logged_in", PyVal.type "bool")]
     "logged_in" (by decide)⟩

/-- Claim C10: the synthesized `__init__` silently ignores keyword
arguments whose names are not declared fields — construction always
succeeds and the resulting instance is exactly the one built from the
kwargs restricted to declared field names. -/
theorem init_ignores_unknown_kwargs (fields kwargs : Dict) :
    initImpl fields kwargs
      = initImpl fields (kwargs.filter (fun p => dictHas fields p.1)) := by
  unfold initImpl
  have aux : ∀ (l : Dict), (∀ p ∈ l, dictHas fields p.1 = true) →
      ∀ (i : Instance),
      l.foldl
        (fun i p =>
          match dictGet? kwargs p.1 with
          | some v => i.setF p.1 v
          | Option.none =>
            { i with attrs := dictInsert i.attrs ("_" ++ p.1) PyVal.none })
        i
      = l.foldl
        (fun i p =>
          match dictGet? (kwargs.filter (fun p => dictHas fields p.1)) p.1 with
          | some v => i.setF p.1 v
          | Option.none =>
            { i with attrs := dictInsert i.attrs ("_" ++ p.1) PyVal.none })
        i := by
    intro l
    induction l with
    | nil => intro _ _; rfl
    | cons q rest ih =>
      intro h i
      rw [List.foldl_cons, List.foldl_cons,
          dictGet?_filter_declared fields kwargs q.1 (h q (List.mem_cons_self q rest))]
      exact ih (fun p hp => h p (List.mem_cons_of_mem q hp)) _
  exact aux fields (fun p hp => dictHas_of_mem fields p hp) _

/-! ### Compilation-path lemmas -/

/-- The accessor-synthesis loop either succeeds — leaving `_fields`
untouched, exactly when every value is a type — or raises `NotAType` at
some non-type value of the list. -/
theorem addLoop_cases (m : Kind) (l : Dict) :
    (∃ m2, addLoop m l = .ok m2 ∧ m2.fields = m.fields
      ∧ ∀ p ∈ l, isType p.2 = true)
    ∨ (∃ n v, addLoop m l = .error (.notAType n) ∧ (n, v) ∈ l
        ∧ isType v = false) := by
  induction l generalizing m with
  | nil => exact Or.inl ⟨m, rfl, rfl, by simp⟩
  | cons q rest ih =>
    obtain ⟨n, v⟩ := q
    cases hv : isType v with
    | true =>
      rcases ih { m with setters := listPut m.setters n,
                         getters := listPut m.getters n } with
        ⟨m2, hok, hf, hall⟩ | ⟨n2, v2, herr, hmem, hv2⟩
      · refine Or.inl ⟨m2, ?_, hf, ?_⟩
        · show (if isType v then _ else _) = _
          rw [hv, if_pos rfl]
          exact hok
        · intro p hp
          rcases List.mem_cons.mp hp with h1 | h2
          · rw [h1]; exact hv
          · exact hall p h2
      · refine Or.inr ⟨n2, v2, ?_, List.mem_cons_of_mem _ hmem, hv2⟩
        show (if isType v then _ else _) = _
        rw [hv, if_pos rfl]
        exact herr
    | false =>
      refine Or.inr ⟨n, v, ?_, List.mem_cons_self _ _, hv⟩
      show (if isType v then _ else _) = _
      rw [hv]
      simp

/-- If every value of `fields` is a type and no name is reserved,
`model_with_fields` succeeds and the compiled kind's `_fields` is exactly
the input schema. -/
theorem model_with_fields_ok (fields : Dict)
    (hres : ∀ p ∈ fields, reservedFields.contains p.1 = false)
    (hty : ∀ p ∈ fields, isType p.2 = true) :
    ∃ k, model_with_fields fields = .ok k ∧ k.fields = fields := by
  unfold model_with_fields
  rw [List.find?_eq_none.mpr (by intro p hp; rw [hres p hp]; simp)]
  unfold add_getters_setters
  rcases addLoop_cases
      { fields := fields, getters := [], setters := [], hasInit := false }
      fields with
    ⟨m2, hok, hf, _⟩ | ⟨n, v, herr, hmem, hv⟩
  · rw [hok]
    exact ⟨clean_getters_setters { m2 with hasInit := true }, rfl, hf⟩
  · rw [hty (n, v) hmem] at hv
    cases hv

/-! ### Claim theorems: schema validation and compilation -/

/-- Claim C8: compiling a schema containing a reserved name (`_fields` or
`_reserved_fields`), wherever it occurs, raises the `ReservedName`
`ValueError` and produces no kind. -/
theorem reserved_name_rejected (fields : Dict)
    (h : ∃ p ∈ fields, reservedFields.contains p.1 = true) :
    ∃ n, reservedFields.contains n = true
      ∧ model_with_fields fields = .error (.reservedName n) := by
  cases hf : fields.find? (fun p => reservedFields.contains p.1) with
  | none =>
    obtain ⟨p, hp, hres⟩ := h
    have := List.find?_eq_none.mp hf p hp
    rw [hres] at this
    cases this rfl
  | some q =>
    have hq := List.find?_some hf
    refine ⟨q.1, by simpa using hq, ?_⟩
    unfold model_with_fields
    rw [hf]

/-- Witness for C8: the reserved name `_reserved_fields` in last position
is still rejected. -/
theorem reserved_name_rejected_witness :
    ∃ n, reservedFields.contains n = true
      ∧ model_with_fields
          [("username", PyVal.type "str"), ("_reserved_fields", PyVal.type "int")]
        = .error (.reservedName n) :=
  reserved_name_rejected
    [("username", PyVal.type "str"), ("_reserved_fields", PyVal.type "int")]
    ⟨("_reserved_fields", PyVal.type "int"), by simp, by decide⟩

/-- Claim C9: `omit_fields` with any name that is not a declared field of
the base kind raises the `UnknownField` `ValueError` before producing any
kind. -/
theorem omit_unknown_field_rejected (K : Kind) (omitNames : List String)
    (h : ∃ n ∈ omitNames, dictHas K.fields n = false) :
    ∃ m, dictHas K.fields m = false
      ∧ K.omit_fields omitNames = .error (.unknownField m) := by
  cases hf : omitNames.find? (fun n => !dictHas K.fields n) with
  | none =>
    obtain ⟨n, hn, hmiss⟩ := h
    have := List.find?_eq_none.mp hf n hn
    rw [hmiss] at this
    cases this rfl
  | some n =>
    have hn := List.find?_some hf
    refine ⟨n, by simpa using hn, ?_⟩
    unfold Kind.omit_fields
    rw [hf]

/-- Witness for C9 at a concrete kind. -/
theorem omit_unknown_field_rejected_witness :
    ∃ m, dictHas [("username", PyVal.type "str")] m = false
      ∧ (Kind.mk [("username", PyVal.type "str")] ["username"] ["username"]
          true).omit_fields ["password"]
        = .error (.unknownField m) :=
  omit_unknown_field_rejected
    (Kind.mk [("username", PyVal.type "str")] ["username"] ["username"] true)
    ["password"] ⟨"password", by simp, by decide⟩

/-- Claim C7 as stated is false: the left-to-right reading "compilation
succeeds for every schema whose every value is a type" fails when a
reserved name is present — `{'_fields': int}` has only type values, yet
compilation fails with `ReservedName`, not with success or `NotAType`. -/
theorem compile_notAType_iff_counterexample :
    [("_fields", PyVal.type "int")].all (fun p => isType p.2) = true
    ∧ model_with_fields [("_fields", PyVal.type "int")]
        = .error (.reservedName "_fields") :=
  ⟨rfl, rfl⟩

/-- Claim C7 (amended): on schemas free of reserved names, compilation
fails with `NotAType` iff some schema value is not a type descriptor; in
particular, on every such schema whose every value is a type, compilation
succeeds and produces a kind. -/
theorem compile_notAType_iff (fields : Dict)
    (hres : ∀ p ∈ fields, reservedFields.contains p.1 = false) :
    ((∃ n, model_with_fields fields = .error (.notAType n))
      ↔ ∃ p ∈ fields, isType p.2 = false)
    ∧ ((∀ p ∈ fields, isType p.2 = true) →
        ∃ k, model_with_fields fields = .ok k) := by
  have hnone : fields.find? (fun p => reservedFields.contains p.1)
      = Option.none :=
    List.find?_eq_none.mpr (by intro p hp; rw [hres p hp]; simp)
  refine ⟨⟨?_, ?_⟩, fun hty => ?_⟩
  case refine_3 =>
    obtain ⟨k, hk, _⟩ := model_with_fields_ok fields hres hty
    exact ⟨k, hk⟩
  · rintro ⟨n, hn⟩
    unfold model_with_fields at hn
    rw [hnone] at hn
    unfold add_getters_setters at hn
    rcases addLoop_cases
        { fields := fields, getters := [], setters := [], hasInit := false }
        fields with
      ⟨m2, hok, _, _⟩ | ⟨n2, v2, _, hmem, hv⟩
    · rw [hok] at hn
      cases hn
    · exact ⟨(n2, v2), hmem, hv⟩
  · rintro ⟨p, hp, hv⟩
    rcases addLoop_cases
        { fields := fields, getters := [], setters := [], hasInit := false }
        fields with
      ⟨m2, _, _, hall⟩ | ⟨n2, v2, herr, _, _⟩
    · rw [hall p hp] at hv
      cases hv
    · refine ⟨n2, ?_⟩
      unfold model_with_fields
      rw [hnone]
      unfold add_getters_setters
      rw [herr]

/-- Witness for the amended C7 at a concrete reserved-free schema holding
a non-type value (the int `5`). -/
theorem compile_notAType_iff_witness :
    ((∃ n, model_with_fields
          [("username", PyVal.type "str"), ("count", PyVal.int 5)]
        = .error (.notAType n))
      ↔ ∃ p ∈ [("username", PyVal.type "str"), ("count", PyVal.int 5)],
          isType p.2 = false)
    ∧ ((∀ p ∈ [("username", PyVal.type "str"), ("count", PyVal.int 5)],
          isType p.2 = true) →
        ∃ k, model_with_fields
            [("username", PyVal.type "str"), ("count", PyVal.int 5)]
          = .ok k) :=
  compile_notAType_iff
    [("username", PyVal.type "str"), ("count", PyVal.int 5)] (by decide)

/-- The kind compiled from the one-field schema `{a: int}`. -/
def kindA : Kind :=
  { fields := [("a", PyVal.type "int")], getters := ["a"], setters := ["a"],
    hasInit := true }

/-- Claim C3 as stated is false: `add_fields` with a name that is already
a declared field of the base kind does not raise any duplicate-name error
— it succeeds, the new value silently overriding the old one. -/
theorem add_fields_duplicate_counterexample :
    model_with_fields [("a", PyVal.type "int")] = .ok kindA
    ∧ dictHas kindA.fields "a" = true
    ∧ kindA.add_fields [("a", PyVal.type "str")]
        = .ok (Kind.mk [("a", PyVal.type "str")] ["a"] ["a"] true) :=
  ⟨rfl, rfl, rfl⟩

/-- Claim C3 (amended): `add_fields` performs no duplicate-name check.
Whenever the merged schema (base fields overridden by the additions) is
free of reserved names and all-type-valued, it succeeds, producing a kind
whose `_fields` is the merged dict with later (added) values overriding
earlier ones. -/
theorem add_fields_overrides (cls : Kind) (new_fields : Dict)
    (h : ∀ p ∈ dictOfList (cls.fields ++ new_fields),
        reservedFields.contains p.1 = false ∧ isType p.2 = true) :
    ∃ k, cls.add_fields new_fields = .ok k
      ∧ k.fields = dictOfList (cls.fields ++ new_fields) := by
  obtain ⟨k1, hk1, hf1⟩ := model_with_fields_ok _
    (fun p hp => (h p hp).1) (fun p hp => (h p hp).2)
  unfold Kind.add_fields
  rw [hk1]
  show ∃ k, add_getters_setters k1 = Except.ok k
    ∧ k.fields = dictOfList (cls.fields ++ new_fields)
  unfold add_getters_setters
  rcases addLoop_cases k1 k1.fields with
    ⟨m2, hok, hf2, _⟩ | ⟨n, v, _, hmem, hv⟩
  · rw [hok]
    refine ⟨_, rfl, ?_⟩
    show m2.fields = _
    rw [hf2, hf1]
  · rw [hf1] at hmem
    rw [(h (n, v) hmem).2] at hv
    cases hv

/-- Witness for the amended C3: adding `{a: str}` over the kind with
`{a: int}` succeeds and the `str` entry wins. -/
theorem add_fields_overrides_witness :
    ∃ k, kindA.add_fields [("a", PyVal.type "str")] = .ok k
      ∧ k.fields = dictOfList (kindA.fields ++ [("a", PyVal.type "str")]) :=
  add_fields_overrides kindA [("a", PyVal.type "str")] (by decide)

/-- Claim C1: the code cannot deliver it.  Whenever every omitted name is
a declared field — exactly the case the spec says must succeed —
`omit_fields` raises `TypeError`, because the remaining-fields dict is
passed positionally to the keyword-only `model_with_fields`.  No kind is
ever produced. -/
theorem omit_fields_always_typeError (K : Kind) (omitNames : List String)
    (h : ∀ n ∈ omitNames, dictHas K.fields n = true) :
    K.omit_fields omitNames = .error .typeErrorPositional := by
  unfold Kind.omit_fields
  rw [List.find?_eq_none.mpr (by intro n hn; rw [h n hn]; simp)]

/-- Witness for C1's failure: omitting the declared field `b` from the
kind compiled from `{a: int, b: str}` raises `TypeError`. -/
theorem omit_fields_always_typeError_witness :
    (Kind.mk [("a", PyVal.type "int"), ("b", PyVal.type "str")] ["a", "b"]
        ["a", "b"] true).omit_fields ["b"]
      = .error .typeErrorPositional :=
  omit_fields_always_typeError
    (Kind.mk [("a", PyVal.type "int"), ("b", PyVal.type "str")] ["a", "b"]
      ["a", "b"] true)
    ["b"] (by decide)

/-- Claim C2: the code cannot deliver it.  For every valid declaration —
an `Interface` subclass whose `_fields_enum` is an `Enum` — the adapter
passes all validation and then raises `AttributeError`, because it calls
`Model.model_from_fields`, an attribute `Model` does not have (the
defined method is `model_with_fields`).  No kind is ever produced. -/
theorem model_from_proto_always_attributeError (iface : Iface)
    (e : EnumDecl) (h1 : iface.isInterfaceSubclass = true)
    (h2 : iface.fieldsEnum = some e) :
    model_from_proto iface = .error (.attributeError "model_from_fields") := by
  unfold model_from_proto
  rw [h1, h2]
  rfl

/-- Witness for C2's failure: a valid declaration with a one-member enum
still raises `AttributeError`. -/
theorem model_from_proto_always_attributeError_witness :
    model_from_proto
        (Iface.mk true (some (EnumDecl.mk [("username", PyVal.type "str")])))
      = .error (.attributeError "model_from_fields") :=
  model_from_proto_always_attributeError
    (Iface.mk true (some (EnumDecl.mk [("username", PyVal.type "str")])))
    (EnumDecl.mk [("username", PyVal.type "str")]) rfl rfl

/-! ### Heap non-interference lemmas -/

theorem find?_map_updKey (l : List (Nat × Kind)) (b : Nat) (f : Kind → Kind)
    (a : Nat) (h : a ≠ b) :
    (l.map (fun p => if p.1 == b then (p.1, f p.2) else p)).find?
        (fun p => p.1 == a)
      = l.find? (fun p => p.1 == a) := by
  induction l with
  | nil => rfl
  | cons q rest ih =>
    cases hqb : (q.1 == b) with
    | true =>
      have hqa : (q.1 == a) = false := by
        have : q.1 = b := by simpa using hqb
        simp only [this, beq_eq_false_iff_ne]
        exact fun hc => h hc.symm
      simp only [List.map_cons, hqb, if_true]
      rw [List.find?_cons_of_neg _ (by simp [hqa]),
          List.find?_cons_of_neg _ (by simp [hqa])]
      exact ih
    | false =>
      simp only [List.map_cons, hqb, if_false]
      cases hqa : (q.1 == a) with
      | true =>
        rw [List.find?_cons_of_pos _ (by simp [hqa]),
            List.find?_cons_of_pos _ (by simp [hqa])]
        simp
      | false =>
        rw [List.find?_cons_of_neg _ (by simp [hqa]),
            List.find?_cons_of_neg _ (by simp [hqa])]
        exact ih

/-- A `setattr` on the class at `b` does not change the class at `a`. -/
theorem heapGet?_updKind_ne (s : HState) (b : Nat) (f : Kind → Kind)
    (a : Nat) (h : a ≠ b) : heapGet? (updKind s b f) a = heapGet? s a := by
  unfold heapGet? updKind
  rw [find?_map_updKey s.heap b f a h]

theorem find?_heap_append_single (l : List (Nat × Kind)) (x : Nat × Kind)
    (a : Nat) (h : (x.1 == a) = false) :
    (l ++ [x]).find? (fun p => p.1 == a) = l.find? (fun p => p.1 == a) := by
  induction l with
  | nil =>
    simp only [List.nil_append]
    rw [List.find?_cons_of_neg _ (by simp [h])]
  | cons q rest ih =>
    cases hqa : (q.1 == a) with
    | true =>
      rw [List.cons_append, List.find?_cons_of_pos _ (by simp [hqa]),
          List.find?_cons_of_pos _ (by simp [hqa])]
    | false =>
      rw [List.cons_append, List.find?_cons_of_neg _ (by simp [hqa]),
          List.find?_cons_of_neg _ (by simp [hqa])]
      exact ih

/-- Allocating a fresh class does not change the class at an already
allocated address. -/
theorem heapGet?_alloc_ne (s : HState) (k : Kind) (a : Nat)
    (h : a ≠ s.next) : heapGet? (alloc s k).2 a = heapGet? s a := by
  unfold heapGet? alloc
  rw [find?_heap_append_single s.heap (s.next, k) a
    (by simp only [beq_eq_false_iff_ne]; exact fun hc => h hc.symm)]

/-- The accessor-synthesis loop on the class at `b` never changes the
class at another address `a`. -/
theorem addLoopH_get_ne (l : Dict) (s : HState) (b a : Nat) (h : a ≠ b) :
    heapGet? (addLoopH s b l).2 a = heapGet? s a := by
  induction l generalizing s with
  | nil => rfl
  | cons q rest ih =>
    obtain ⟨n, v⟩ := q
    cases hv : isType v with
    | true =>
      show heapGet?
        (if isType v then
          addLoopH (updKind s b (fun m =>
            { m with setters := listPut m.setters n,
                     getters := listPut m.getters n })) b rest
         else ((.error (.notAType n)), s)).2 a = heapGet? s a
      rw [hv, if_pos rfl, ih, heapGet?_updKind_ne s b _ a h]
    | false =>
      show heapGet?
        (if isType v then
          addLoopH (updKind s b (fun m =>
            { m with setters := listPut m.setters n,
                     getters := listPut m.getters n })) b rest
         else ((.error (.notAType n)), s)).2 a = heapGet? s a
      rw [hv]
      simp

/-- `add_getters_setters` on the class at `b` never changes the class at
another address `a`, whether it succeeds or raises. -/
theorem addGSH_get_ne (s : HState) (b a : Nat) (h : a ≠ b) :
    heapGet? (addGSH s b).2 a = heapGet? s a := by
  unfold addGSH
  cases hm : heapGet? s b with
  | none => rfl
  | some m =>
    dsimp only
    cases hL : addLoopH s b m.fields with
    | mk r sA =>
      have hsA : heapGet? sA a = heapGet? s a := by
        have hstep := addLoopH_get_ne m.fields s b a h
        rw [hL] at hstep
        exact hstep
      cases r with
      | error e => exact hsA
      | ok u =>
        dsimp only
        rw [heapGet?_updKind_ne _ b _ a h, heapGet?_updKind_ne _ b _ a h, hsA]

/-- The address a successful `model_with_fieldsH` returns is the fresh
one allocated for `__impl_model__`. -/
theorem model_with_fieldsH_addr (s : HState) (fields : Dict) (a1 : Nat)
    (sM : HState) (h : model_with_fieldsH s fields = (.ok a1, sM)) :
    a1 = s.next := by
  unfold model_with_fieldsH at h
  cases hf : fields.find? (fun p => reservedFields.contains p.1) with
  | some p =>
    rw [hf] at h
    simp at h
  | none =>
    rw [hf] at h
    simp only [alloc] at h
    cases hG : addGSH
        { heap := s.heap ++ [(s.next,
            { fields := fields, getters := [], setters := [],
              hasInit := false })], next := s.next + 1 } s.next with
    | mk r sG =>
      rw [hG] at h
      cases r with
      | error e => simp at h
      | ok u =>
        simp only [Prod.mk.injEq] at h
        exact (Except.ok.inj h.1).symm

/-- A `model_with_fieldsH` call never changes an already allocated
class, whether it succeeds or raises. -/
theorem model_with_fieldsH_get_ne (s : HState) (fields : Dict) (a : Nat)
    (h : a < s.next) :
    heapGet? (model_with_fieldsH s fields).2 a = heapGet? s a := by
  unfold model_with_fieldsH
  cases hf : fields.find? (fun p => reservedFields.contains p.1) with
  | some p => rfl
  | none =>
    simp only [alloc]
    have hAllocState : heapGet?
        { heap := s.heap ++ [(s.next,
            { fields := fields, getters := [], setters := [],
              hasInit := false })], next := s.next + 1 } a = heapGet? s a := by
      have := heapGet?_alloc_ne s
        { fields := fields, getters := [], setters := [], hasInit := false }
        a (Nat.ne_of_lt h)
      simpa [alloc] using this
    cases hG : addGSH
        { heap := s.heap ++ [(s.next,
            { fields := fields, getters := [], setters := [],
              hasInit := false })], next := s.next + 1 } s.next with
    | mk r sG =>
      have hsG : heapGet? sG a = heapGet? s a := by
        have hstep := addGSH_get_ne
          { heap := s.heap ++ [(s.next,
              { fields := fields, getters := [], setters := [],
                hasInit := false })], next := s.next + 1 }
          s.next a (Nat.ne_of_lt h)
        rw [hG] at hstep
        rw [hstep]
        exact hAllocState
      cases r with
      | error e => exact hsG
      | ok u => exact hsG

/-! ### Claim theorem: derivation does not mutate the base kind -/

/-- Claim C4: `add_fields` and `omit_fields` on the class at address `a`
leave that class object — its `_fields` and its accessor attributes —
exactly as they were, whether the derivation succeeds or raises. -/
theorem derivation_preserves_base (s : HState) (a : Nat) (k : Kind)
    (new_fields : Dict) (rm_fields : List String)
    (hwf : s.WF) (hk : heapGet? s a = some k) :
    heapGet? (add_fieldsH s a new_fields).2 a = some k
    ∧ heapGet? (omit_fieldsH s a rm_fields).2 a = some k := by
  have ha : a < s.next := by
    unfold heapGet? at hk
    cases hf : s.heap.find? (fun p => p.1 == a) with
    | none => rw [hf] at hk; cases hk
    | some p =>
      have hmem := List.mem_of_find?_eq_some hf
      have hpa := List.find?_some hf
      have hp1 : p.1 = a := by simpa using hpa
      exact hp1 ▸ hwf p hmem
  constructor
  · unfold add_fieldsH
    rw [hk]
    dsimp only
    cases hM : model_with_fieldsH s (dictOfList (k.fields ++ new_fields)) with
    | mk r sM =>
      have hsM : heapGet? sM a = heapGet? s a := by
        have hstep := model_with_fieldsH_get_ne s
          (dictOfList (k.fields ++ new_fields)) a ha
        rw [hM] at hstep
        exact hstep
      cases r with
      | error e => rw [hsM, hk]
      | ok a1 =>
        have ha1 : a1 = s.next := model_with_fieldsH_addr s _ a1 sM hM
        have hne : a ≠ a1 := by rw [ha1]; exact Nat.ne_of_lt ha
        dsimp only
        cases hG : addGSH sM a1 with
        | mk r2 sG =>
          have hsG : heapGet? sG a = heapGet? sM a := by
            have hstep := addGSH_get_ne sM a1 a hne
            rw [hG] at hstep
            exact hstep
          cases r2 with
          | error e => rw [hsG, hsM, hk]
          | ok u => rw [hsG, hsM, hk]
  · unfold omit_fieldsH
    rw [hk]
    dsimp only
    cases hf2 : rm_fields.find? (fun n => !dictHas k.fields n) with
    | some n => exact hk
    | none => exact hk

/-- Witness for C4 at a concrete one-kind heap: deriving with
`add_fields {b: str}` and `omit_fields {a}` leaves the kind at address 0
intact. -/
theorem derivation_preserves_base_witness :
    (HState.mk [(0, kindA)] 1).WF
    ∧ heapGet? (add_fieldsH (HState.mk [(0, kindA)] 1) 0
        [("b", PyVal.type "str")]).2 0 = some kindA
    ∧ heapGet? (omit_fieldsH (HState.mk [(0, kindA)] 1) 0 ["a"]).2 0
        = some kindA := by
  have hmain := derivation_preserves_base (HState.mk [(0, kindA)] 1) 0 kindA
    [("b", PyVal.type "str")] ["a"] (by decide) (by decide)
  exact ⟨by decide, hmain.1, hmain.2⟩

end Wire
